import Mathlib

/-!
Verification of the core of `rocket_i18n` (template formatting and
locale negotiation), shallowly embedded from `src/lib.rs`,
`src/with_rocket.rs` and `src/with_actix.rs`.

Rust strings are modelled as `List Char` (`Str`).  A `Box<dyn Display>`
argument is modelled by the string it renders to, since `try_format`
only ever observes an argument through `format!("\x7b\x7d", var)`.
-/

/-- Rust `&str` / `String`, modelled as its character sequence. -/
abbrev Str := List Char

deriving instance DecidableEq for Except

/-- The open-brace character. -/
def lbrace : Char := '\x7b'

/-- The close-brace character. -/
def rbrace : Char := '\x7d'

/-- Rust `str::split` with a character predicate pattern: splits at every
matching character; the empty string yields `[[]]`, and separators at the
ends produce empty pieces, exactly as in Rust. -/
def splitPred (p : Char → Bool) : Str → List Str
  | [] => [[]]
  | c :: rest =>
    if p c then
      [] :: splitPred p rest
    else
      match splitPred p rest with
      | s :: ss => (c :: s) :: ss
      | [] => [[c]]

/-- Rust `str::split` with a `char` pattern. -/
def splitChar (c : Char) (s : Str) : List Str := splitPred (fun x => x == c) s

/-- Rust `str::contains` with a `char` pattern. -/
def containsChar (c : Char) : Str → Bool
  | [] => false
  | x :: rest => x == c || containsChar c rest

/-- The error type of `try_format` (`FormatError` in `src/lib.rs`). -/
inductive FormatError
  | UnmatchedCurlyBracket
  | InvalidPositionalArgument
deriving DecidableEq, Repr

/-- Accumulating decimal parser: the digits-consuming loop of Rust's
`usize::from_str`.  Fails on the first non-ASCII-digit character. -/
def parseDigitsAux : Str → Nat → Option Nat
  | [], acc => some acc
  | c :: rest, acc =>
    if c.isDigit then parseDigitsAux rest (acc * 10 + (c.toNat - ('0').toNat))
    else none

/-- Rust `str::parse::<usize>()` (`usize::from_str`): an optional leading
`+` sign followed by one or more ASCII digits.  Overflow of `usize` is not
modelled (the value is an unbounded `Nat`); inside `try_format` this is
observationally equivalent, because an overflowing index is necessarily out
of range of `argv` and both the parse error and the out-of-range lookup
produce the same `InvalidPositionalArgument` error. -/
def parseUsize : Str → Option Nat
  | [] => none
  | '+' :: rest => if rest = [] then none else parseDigitsAux rest 0
  | s => parseDigitsAux s 0

/-- The index expression of `src/lib.rs:289-294`: a non-empty specifier
is parsed as a `usize` (`arg.parse().map_err(..)?`, so a parse failure is
an early `InvalidPositionalArgument` return), an empty one uses the
enumeration index `i` of the current segment. -/
def parsePositional (arg : Str) (i : Nat) : Except FormatError Nat :=
  if arg.length > 0 then
    match parseUsize arg with
    | some n => Except.ok n
    | none => Except.error FormatError.InvalidPositionalArgument
  else Except.ok i

/-- Argument resolution for one placeholder specifier, from
`src/lib.rs:288-296`: the resolved index is looked up in `argv`
(`argv.get(..)`), and a missing entry is `InvalidPositionalArgument`. -/
def resolveArg (argv : List Str) (i : Nat) (arg : Str) : Except FormatError Str :=
  match parsePositional arg i with
  | Except.error e => Except.error e
  | Except.ok idx =>
    match argv.get? idx with
    | some v => Except.ok v
    | none => Except.error FormatError.InvalidPositionalArgument

/-- The body of the parsing loop of `try_format` (`src/lib.rs:280-300`)
for one `rbrace`-delimited segment `part` at enumeration index `i`:
if `part` contains an open brace it is split on it into a literal text,
a placeholder specifier, and (for a malformed segment) further pieces;
more than one open brace is `UnmatchedCurlyBracket`, and otherwise the
specifier is resolved against `argv`.  A segment without an open brace is
literal trailing text (`none` marks that `finish_or_fail` must be set). -/
def formatStep (argv : List Str) (i : Nat) (part : Str) :
    Except FormatError (Str × Option Str) :=
  if containsChar lbrace part then
    match splitChar lbrace part with
    | text :: arg :: extra =>
      if extra = [] then
        match resolveArg argv i arg with
        | Except.ok v => Except.ok (text, some v)
        | Except.error e => Except.error e
      else Except.error FormatError.UnmatchedCurlyBracket
    | _ => Except.error FormatError.UnmatchedCurlyBracket
  else Except.ok (part, none)

/-- The parsing phase of `try_format` (`src/lib.rs:272-301`): walks the
`rbrace`-split segments with the enumeration index `i` and the
`finish_or_fail` flag, producing the `pattern` (literal texts) and `vars`
(resolved arguments) vectors.  Any segment after one without an open brace
is `UnmatchedCurlyBracket`. -/
def formatParse (argv : List Str) : List Str → Nat → Bool →
    Except FormatError (List Str × List Str)
  | [], _, _ => Except.ok ([], [])
  | part :: rest, i, finishOrFail =>
    if finishOrFail then Except.error FormatError.UnmatchedCurlyBracket
    else
      match formatStep argv i part with
      | Except.error e => Except.error e
      | Except.ok (text, none) =>
        match formatParse argv rest (i + 1) true with
        | Except.ok (ps, vs) => Except.ok (text :: ps, vs)
        | Except.error e => Except.error e
      | Except.ok (text, some v) =>
        match formatParse argv rest (i + 1) finishOrFail with
        | Except.ok (ps, vs) => Except.ok (text :: ps, v :: vs)
        | Except.error e => Except.error e

/-- The output phase of `try_format` (`src/lib.rs:303-312`): write each
literal text, each followed by the next resolved argument while one
remains. -/
def renderParts : List Str → List Str → Str
  | [], _ => []
  | t :: ts, [] => t ++ renderParts ts []
  | t :: ts, v :: vs => t ++ (v ++ renderParts ts vs)

/-- `try_format` from `src/lib.rs:266-314`: split the pattern on the close
brace, parse every segment, then interleave literal texts with the
resolved arguments. -/
def tryFormat (strPattern : Str) (argv : List Str) : Except FormatError Str :=
  match formatParse argv (splitChar rbrace strPattern) 0 false with
  | Except.ok (pattern, vars) => Except.ok (renderParts pattern vars)
  | Except.error e => Except.error e

/-! ## Locale negotiation

`I18n::from_request` in `src/with_rocket.rs` and `src/with_actix.rs`.
The translation table (`Translations = Vec<(&'static str, Catalog)>`) is
modelled as a `List (Str × α)` with an opaque catalog type `α`; the
`Accept-Language` header value is an `Option Str` (`None` when the header
is absent, which both implementations replace by `"en"` via `unwrap_or`).
Retrieving the table from the framework state is outside the model (its
absence panics in the Rocket version and is `MissingStateError` in the
Actix one); the table is a parameter here. -/

/-- The separator predicate `|c| c == '-' || c == ';'` used to cut a
candidate token down to its bare language tag. -/
def localePred (c : Char) : Bool := c == '-' || c == ';'

/-- Candidate bare tags in the Rocket implementation
(`src/with_rocket.rs:22-28`): split the header on commas, and keep the
first piece of each token split on `-`/`;` (`.next()`). -/
def acceptCandidatesRocket (accept : Str) : List Str :=
  (splitChar ',' accept).filterMap (fun lang => (splitPred localePred lang).head?)

/-- Candidate bare tags in the Actix implementation
(`src/with_actix.rs:58-64`); identical except that it takes the first
piece with `.nth(0)`. -/
def acceptCandidatesActix (accept : Str) : List Str :=
  (splitChar ',' accept).filterMap (fun lang => (splitPred localePred lang).get? 0)

/-- The locale tag chosen by `src/with_rocket.rs:18-31`: the first
candidate bare tag supported by the table, defaulting to `"en"` both for
an absent header and when no candidate matches. -/
def chooseLangRocket {α : Type} (langs : List (Str × α)) (accept : Option Str) : Str :=
  ((acceptCandidatesRocket (accept.getD (("en").toList))).find?
    (fun lang => langs.any (fun l => l.1 == lang))).getD (("en").toList)

/-- The locale tag chosen by `src/with_actix.rs:53-67`. -/
def chooseLangActix {α : Type} (langs : List (Str × α)) (accept : Option Str) : Str :=
  ((acceptCandidatesActix (accept.getD (("en").toList))).find?
    (fun lang => langs.any (fun l => l.1 == lang))).getD (("en").toList)

/-- The Rocket guard outcome (`src/with_rocket.rs:33-39`): look the chosen
tag up in the table; success carries the `(lang, catalog)` pair of the
found entry, and a missing entry is the failure outcome
(`Outcome::Failure((Status::InternalServerError, ()))`, modelled as
`none`). -/
def fromRequestRocket {α : Type} (langs : List (Str × α)) (accept : Option Str) :
    Option (Str × α) :=
  let lang := chooseLangRocket langs accept
  match langs.find? (fun l => l.1 == lang) with
  | some translation => some (translation.1, translation.2)
  | none => none

/-- The error type of the Actix extractor (`src/with_actix.rs:7-8`):
`MissingTranslationsError(String)` carries the tag that had no entry. -/
inductive ActixNegotiationError
  | missingTranslations (lang : Str)
deriving DecidableEq, Repr

/-- The Actix extractor result (`src/with_actix.rs:69-75`): like the
Rocket version, but failure is `MissingTranslationsError(lang)` with the
chosen tag. -/
def fromRequestActix {α : Type} (langs : List (Str × α)) (accept : Option Str) :
    Except ActixNegotiationError (Str × α) :=
  let lang := chooseLangActix langs accept
  match langs.find? (fun l => l.1 == lang) with
  | some translation => Except.ok (translation.1, translation.2)
  | none => Except.error (ActixNegotiationError.missingTranslations lang)

/-! ## Basic lemmas about the string primitives -/

theorem containsChar_append (c : Char) (a b : Str) :
    containsChar c (a ++ b) = (containsChar c a || containsChar c b) := by
  induction a with
  | nil => simp [containsChar]
  | cons x xs ih => simp [containsChar, ih, Bool.or_assoc]

theorem splitChar_of_not_contains (c : Char) (s : Str) (h : containsChar c s = false) :
    splitChar c s = [s] := by
  induction s with
  | nil => rfl
  | cons x xs ih =>
    rw [containsChar, Bool.or_eq_false_iff] at h
    simp [splitChar, splitPred, h.1] at ih ⊢
    rw [ih h.2]

theorem splitChar_append_cons (c : Char) (t rest : Str) (h : containsChar c t = false) :
    splitChar c (t ++ c :: rest) = t :: splitChar c rest := by
  induction t with
  | nil => simp [splitChar, splitPred]
  | cons x xs ih =>
    rw [containsChar, Bool.or_eq_false_iff] at h
    simp [splitChar, splitPred, h.1] at ih ⊢
    rw [ih h.2]

theorem contains_of_splitChar_cons_cons (c : Char) (s t a : Str) (l : List Str)
    (h : splitChar c s = t :: a :: l) : containsChar c s = true := by
  cases hc : containsChar c s with
  | true => rfl
  | false => rw [splitChar_of_not_contains c s hc] at h; simp at h

/-! ## Lemmas about the parsing phase of `try_format` -/

theorem parsePositional_error (a : Str) (i : Nat) (e : FormatError)
    (h : parsePositional a i = Except.error e) :
    e = FormatError.InvalidPositionalArgument := by
  unfold parsePositional at h
  split at h
  · split at h <;> simp_all
  · simp_all

theorem resolveArg_error (argv : List Str) (i : Nat) (a : Str) (e : FormatError)
    (h : resolveArg argv i a = Except.error e) :
    e = FormatError.InvalidPositionalArgument := by
  unfold resolveArg at h
  cases hp : parsePositional a i with
  | error e1 =>
    rw [hp] at h
    simp at h
    rw [← h]
    exact parsePositional_error a i e1 hp
  | ok idx =>
    rw [hp] at h
    simp only [] at h
    split at h <;> simp_all

/-- Resolution of a list of placeholder specifiers occupying consecutive
segment positions starting at `i`: `some` of the resolved argument
renderings when every specifier parses and is in range. -/
def resolveList (argv : List Str) : Nat → List Str → Option (List Str)
  | _, [] => some []
  | i, a :: rest =>
    match resolveArg argv i a with
    | Except.ok v => (resolveList argv (i + 1) rest).map (fun vs => v :: vs)
    | Except.error _ => none

theorem resolveList_length (argv : List Str) :
    ∀ (args : List Str) (i : Nat) (vals : List Str),
    resolveList argv i args = some vals → vals.length = args.length := by
  intro args
  induction args with
  | nil => intro i vals h; simp [resolveList] at h; simp [← h]
  | cons a rest ih =>
    intro i vals h
    rw [resolveList] at h
    cases hra : resolveArg argv i a with
    | error e => rw [hra] at h; simp at h
    | ok v =>
      rw [hra] at h
      cases hrl : resolveList argv (i + 1) rest with
      | none => rw [hrl] at h; simp at h
      | some vs =>
        rw [hrl] at h
        simp at h
        rw [← h]
        simp [ih (i + 1) vs hrl]

/-- `formatParse` with the `finish_or_fail` flag already set succeeds only
on an empty remainder. -/
theorem formatParse_true_ok (argv : List Str) (l : List Str) (i : Nat)
    (r : List Str × List Str) (h : formatParse argv l i true = Except.ok r) :
    l = [] := by
  cases l with
  | nil => rfl
  | cons a as => simp [formatParse] at h

/-- Composition of `formatParse` runs: a fully consumed run on the first
segments (every segment produced a placeholder, so `finish_or_fail` is
still unset and the enumeration index advanced by their count) composes
with the run on the remaining segments. -/
theorem formatParse_append (argv : List Str) (pre : List Str) :
    ∀ (rest : List Str) (i : Nat) (ts vs : List Str),
    formatParse argv pre i false = Except.ok (ts, vs) →
    vs.length = pre.length →
    formatParse argv (pre ++ rest) i false =
      Except.map (fun r => (ts ++ r.1, vs ++ r.2))
        (formatParse argv rest (i + pre.length) false) := by
  induction pre with
  | nil =>
    intro rest i ts vs h hlen
    rw [formatParse] at h
    simp at h
    obtain ⟨h1, h2⟩ := h
    subst h1; subst h2
    cases hr : formatParse argv rest i false with
    | ok r => simp [hr, Except.map]
    | error e => simp [hr, Except.map]
  | cons part pre ih =>
    intro rest i ts vs h hlen
    rw [formatParse] at h
    simp only [if_neg Bool.false_ne_true] at h
    cases hstep : formatStep argv i part with
    | error e => rw [hstep] at h; simp at h
    | ok tv =>
      rw [hstep] at h
      obtain ⟨text, v?⟩ := tv
      cases v? with
      | none =>
        simp only [] at h
        cases hrec : formatParse argv pre (i + 1) true with
        | error e => rw [hrec] at h; simp at h
        | ok r =>
          obtain ⟨ps, qs⟩ := r
          have hnil := formatParse_true_ok argv pre (i + 1) (ps, qs) hrec
          subst hnil
          rw [formatParse] at h
          simp at h
          obtain ⟨h1, h2⟩ := h
          subst h2
          simp at hlen
      | some v =>
        simp only [] at h
        cases hrec : formatParse argv pre (i + 1) false with
        | error e => rw [hrec] at h; simp at h
        | ok r =>
          obtain ⟨ps, qs⟩ := r
          rw [hrec] at h
          simp at h
          obtain ⟨hts, hvs⟩ := h
          subst hts; subst hvs
          have hqs : qs.length = pre.length := by
            rw [List.length_cons] at hlen
            simp at hlen
            omega
          rw [List.cons_append, formatParse]
          simp only [if_neg Bool.false_ne_true]
          rw [hstep]
          simp only []
          rw [ih rest (i + 1) ps qs hrec hqs]
          have harith : i + 1 + pre.length = i + (pre.length + 1) := by omega
          rw [harith]
          have hlist : (part :: pre).length = pre.length + 1 := by simp
          rw [hlist]
          cases hr : formatParse argv rest (i + (pre.length + 1)) false with
          | ok r2 => simp [Except.map]
          | error e => simp [Except.map]

/-- One well-formed placeholder segment: `formatStep` on
`text ++ lbrace :: arg` (exactly one open brace) resolves the specifier. -/
theorem formatStep_placeholder (argv : List Str) (i : Nat) (t a : Str)
    (ht : containsChar lbrace t = false) (ha : containsChar lbrace a = false) :
    formatStep argv i (t ++ lbrace :: a) =
      match resolveArg argv i a with
      | Except.ok v => Except.ok (t, some v)
      | Except.error e => Except.error e := by
  have hc : containsChar lbrace (t ++ lbrace :: a) = true := by
    rw [containsChar_append]
    simp [containsChar]
  have hs : splitChar lbrace (t ++ lbrace :: a) = [t, a] := by
    rw [splitChar_append_cons lbrace t a ht, splitChar_of_not_contains lbrace a ha]
  rw [formatStep, hc, hs]
  simp

/-- `formatParse` on a fully well-formed segment list: every segment
except the last holds exactly one placeholder, every specifier resolves,
and the trailing segment is pure literal text. -/
theorem formatParse_wf (argv : List Str) (texts : List Str) :
    ∀ (args vals : List Str) (last : Str) (i : Nat),
    texts.length = args.length →
    (∀ t ∈ texts, containsChar lbrace t = false) →
    (∀ a ∈ args, containsChar lbrace a = false) →
    containsChar lbrace last = false →
    resolveList argv i args = some vals →
    formatParse argv (List.zipWith (fun t a => t ++ lbrace :: a) texts args ++ [last]) i false
      = Except.ok (texts ++ [last], vals) := by
  induction texts with
  | nil =>
    intro args vals last i hlen _ _ hlast hres
    cases args with
    | cons a rest => simp at hlen
    | nil =>
      simp [resolveList] at hres
      subst hres
      simp only [List.zipWith, List.nil_append]
      rw [formatParse]
      simp only [if_neg Bool.false_ne_true]
      rw [formatStep, hlast]
      simp [formatParse]
  | cons t texts ih =>
    intro args vals last i hlen htexts hargs hlast hres
    cases args with
    | nil => simp at hlen
    | cons a args =>
      rw [resolveList] at hres
      cases hra : resolveArg argv i a with
      | error e => rw [hra] at hres; simp at hres
      | ok v =>
        rw [hra] at hres
        simp only [] at hres
        cases hrl : resolveList argv (i + 1) args with
        | none => rw [hrl] at hres; simp at hres
        | some vals1 =>
          rw [hrl] at hres
          simp at hres
          subst hres
          have hlen1 : texts.length = args.length := by simp at hlen; omega
          have hstep := formatStep_placeholder argv i t a
            (htexts t (List.mem_cons_self t texts))
            (hargs a (List.mem_cons_self a args))
          rw [hra] at hstep
          simp only [] at hstep
          have hrec := ih args vals1 last (i + 1) hlen1
            (fun x hx => htexts x (List.mem_cons_of_mem t hx))
            (fun x hx => hargs x (List.mem_cons_of_mem a hx))
            hlast hrl
          simp only [List.zipWith_cons_cons, List.cons_append]
          rw [formatParse]
          simp only [if_neg Bool.false_ne_true]
          rw [hstep]
          simp only []
          rw [hrec]

/-- `renderParts` on one more text than vars: interleave and close with
the trailing literal text. -/
theorem renderParts_zip (last : Str) :
    ∀ (texts vals : List Str), texts.length = vals.length →
    renderParts (texts ++ [last]) vals
      = (List.zipWith (fun t v => t ++ v) texts vals).flatten ++ last := by
  intro texts
  induction texts with
  | nil =>
    intro vals hlen
    cases vals with
    | cons v vs => simp at hlen
    | nil => simp [renderParts]
  | cons t texts ih =>
    intro vals hlen
    cases vals with
    | nil => simp at hlen
    | cons v vs =>
      have hl : texts.length = vs.length := by simp at hlen; omega
      rw [List.cons_append, renderParts, ih vs hl]
      simp [List.append_assoc]

/-! ## Claims about the template formatter -/

/-- C1: for every pattern that splits on the close brace into segments
each holding exactly one open brace (literal text `texts[k]`, then the
brace, then specifier `args[k]`) plus a trailing literal segment `last`,
and whose specifiers all resolve to in-range arguments (`resolveList`
returning their renderings `vals`), `try_format` succeeds and returns the
concatenation, in segment order, of each literal text followed by its
resolved argument's rendering, followed by the trailing text unchanged. -/
theorem C1_wellFormed_format_success (pat : Str) (argv : List Str)
    (texts args vals : List Str) (last : Str)
    (hsplit : splitChar rbrace pat
      = List.zipWith (fun t a => t ++ lbrace :: a) texts args ++ [last])
    (hlen : texts.length = args.length)
    (htexts : ∀ t ∈ texts, containsChar lbrace t = false)
    (hargs : ∀ a ∈ args, containsChar lbrace a = false)
    (hlast : containsChar lbrace last = false)
    (hres : resolveList argv 0 args = some vals) :
    tryFormat pat argv
      = Except.ok ((List.zipWith (fun t v => t ++ v) texts vals).flatten ++ last) := by
  have hwf := formatParse_wf argv texts args vals last 0 hlen htexts hargs hlast hres
  have hvl : vals.length = args.length := resolveList_length argv args 0 vals hres
  rw [tryFormat, hsplit, hwf]
  simp only []
  rw [renderParts_zip last texts vals (by omega)]

theorem C1_witness :
    tryFormat (("Hello, \x7b0\x7d!").toList) [("John").toList]
      = Except.ok (("Hello, John!").toList)
    ∧ tryFormat (("\x7b0\x7d and \x7b1\x7d").toList) [("Alice").toList, ("Bob").toList]
      = Except.ok (("Alice and Bob").toList) := by
  constructor
  · have h := C1_wellFormed_format_success (("Hello, \x7b0\x7d!").toList)
      [("John").toList] [("Hello, ").toList] [("0").toList] [("John").toList]
      (("!").toList) (by decide) (by decide) (by decide) (by decide) (by decide)
      (by decide)
    exact h.trans (by decide)
  · have h := C1_wellFormed_format_success (("\x7b0\x7d and \x7b1\x7d").toList)
      [("Alice").toList, ("Bob").toList] [[], (" and ").toList]
      [("0").toList, ("1").toList] [("Alice").toList, ("Bob").toList] []
      (by decide) (by decide) (by decide) (by decide) (by decide) (by decide)
    exact h.trans (by decide)

/-- C3 counterexample: `try_format("\x7b0", ["x"])` does not return
`UnmatchedCurlyBracket`.  The pattern splits on the close brace into the
single segment `"\x7b0"`, whose placeholder is consumed as if it were
closed. -/
theorem C3_counterexample :
    tryFormat (("\x7b0").toList) [("x").toList]
      ≠ Except.error FormatError.UnmatchedCurlyBracket := by decide

/-- C3 amended: `try_format("\x7b0", ["x"])` succeeds and returns `"x"`:
a trailing placeholder whose closing brace is missing is still
substituted, because splitting on the close brace leaves the whole
pattern as one segment containing exactly one open brace. -/
theorem C3_amended_unclosed_ok :
    tryFormat (("\x7b0").toList) [("x").toList]
      = Except.ok (("x").toList) := by decide

/-- C9 counterexample: the pattern `"a\x7db"` contains no placeholder
(no open brace at all), yet `try_format` fails on it instead of returning
it unchanged: the stray close brace makes the second segment follow a
final literal segment. -/
theorem C9_counterexample :
    tryFormat (("a\x7db").toList) [("x").toList]
      = Except.error FormatError.UnmatchedCurlyBracket := by decide

/-- C9 amended: for every pattern containing no brace character at all
(hence in particular no placeholder) and every argument list,
`try_format` succeeds and returns the pattern unchanged. -/
theorem C9_no_braces_identity (pat : Str) (argv : List Str)
    (h1 : containsChar lbrace pat = false) (h2 : containsChar rbrace pat = false) :
    tryFormat pat argv = Except.ok pat := by
  rw [tryFormat, splitChar_of_not_contains rbrace pat h2]
  simp [formatParse, formatStep, h1, renderParts]

theorem C9_witness :
    tryFormat (("hello").toList) [("x").toList] = Except.ok (("hello").toList) :=
  C9_no_braces_identity (("hello").toList) [("x").toList] (by decide) (by decide)

/-- C4 counterexample: in the pattern `"\x7d\x7b0\x7d"` with no
arguments, the placeholder's resolved index 0 is out of range of the
argument list, yet `try_format` returns `UnmatchedCurlyBracket` (the
leading stray close brace is detected first), not
`InvalidPositionalArgument`. -/
theorem C4_counterexample :
    tryFormat (("\x7d\x7b0\x7d").toList) ([] : List Str)
      = Except.error FormatError.UnmatchedCurlyBracket
    ∧ tryFormat (("\x7d\x7b0\x7d").toList) ([] : List Str)
      ≠ Except.error FormatError.InvalidPositionalArgument := by decide

/-- C4 amended: `try_format` returns `InvalidPositionalArgument` when the
first offending segment is a specifier problem: if every earlier segment
parses into a placeholder whose argument resolves (a full
`formatParse` run on them succeeds with one resolved argument per
segment), and the next segment holds exactly one open brace whose
specifier fails to resolve (parse failure or out-of-range index), the
whole format fails with `InvalidPositionalArgument`; in particular
`try_format("\x7b5\x7d", ["only-one"])` does. -/
theorem C4_invalid_positional (pat : Str) (argv : List Str)
    (pre : List Str) (bad : Str) (rest : List Str) (t a : Str) (ts vs : List Str)
    (hsplit : splitChar rbrace pat = pre ++ bad :: rest)
    (hpre : formatParse argv pre 0 false = Except.ok (ts, vs))
    (hlen : vs.length = pre.length)
    (hta : splitChar lbrace bad = [t, a])
    (hbad : ∃ e, resolveArg argv pre.length a = Except.error e) :
    tryFormat pat argv = Except.error FormatError.InvalidPositionalArgument := by
  obtain ⟨e, he⟩ := hbad
  have hIPA := resolveArg_error argv pre.length a e he
  subst hIPA
  have hc : containsChar lbrace bad = true :=
    contains_of_splitChar_cons_cons lbrace bad t a [] hta
  have hstep : formatStep argv pre.length bad
      = Except.error FormatError.InvalidPositionalArgument := by
    rw [formatStep]
    simp [hc, hta, he]
  have happ := formatParse_append argv pre (bad :: rest) 0 ts vs hpre hlen
  rw [Nat.zero_add] at happ
  have hpb : formatParse argv (bad :: rest) pre.length false
      = Except.error FormatError.InvalidPositionalArgument := by
    rw [formatParse]
    simp [hstep]
  rw [tryFormat, hsplit, happ, hpb]
  simp [Except.map]

theorem C4_witness :
    tryFormat (("\x7b5\x7d").toList) [("only-one").toList]
      = Except.error FormatError.InvalidPositionalArgument :=
  C4_invalid_positional (("\x7b5\x7d").toList) [("only-one").toList]
    [] (("\x7b5").toList) [[]] [] (("5").toList) [] []
    (by decide) (by decide) (by decide) (by decide)
    ⟨FormatError.InvalidPositionalArgument, by decide⟩

/-- C5: when a placeholder specifier is empty, the argument index used is
the zero-based position of its segment in the split-by-close-brace
sequence: with `pre` earlier fully-consumed segments, the empty-specifier
segment fetches `argv[pre.length]` — a missing entry at exactly that
position fails, and a present one is the substituted value. -/
theorem C5_implicit_index_is_position (pat : Str) (argv : List Str)
    (pre : List Str) (t : Str) (rest : List Str) (ts vs : List Str)
    (hsplit : splitChar rbrace pat = pre ++ (t ++ [lbrace]) :: rest)
    (ht : containsChar lbrace t = false)
    (hpre : formatParse argv pre 0 false = Except.ok (ts, vs))
    (hlen : vs.length = pre.length) :
    formatParse argv (splitChar rbrace pat) 0 false
      = (match argv.get? pre.length with
         | none => Except.error FormatError.InvalidPositionalArgument
         | some v => Except.map (fun r => (ts ++ t :: r.1, vs ++ v :: r.2))
             (formatParse argv rest (pre.length + 1) false)) := by
  have happ := formatParse_append argv pre ((t ++ [lbrace]) :: rest) 0 ts vs hpre hlen
  rw [Nat.zero_add] at happ
  have hstep := formatStep_placeholder argv pre.length t [] ht (by rfl)
  rw [hsplit, happ]
  have hp : parsePositional [] pre.length = Except.ok pre.length := by
    simp [parsePositional]
  cases hget : argv.get? pre.length with
  | none =>
    have hra : resolveArg argv pre.length []
        = Except.error FormatError.InvalidPositionalArgument := by
      rw [resolveArg, hp]
      simp only []
      rw [hget]
    rw [hra] at hstep
    simp only [] at hstep
    have hpb : formatParse argv ((t ++ [lbrace]) :: rest) pre.length false
        = Except.error FormatError.InvalidPositionalArgument := by
      rw [formatParse]
      simp [hstep]
    rw [hpb]
    simp [Except.map]
  | some v =>
    have hra : resolveArg argv pre.length [] = Except.ok v := by
      rw [resolveArg, hp]
      simp only []
      rw [hget]
    rw [hra] at hstep
    simp only [] at hstep
    have hpb : formatParse argv ((t ++ [lbrace]) :: rest) pre.length false
        = match formatParse argv rest (pre.length + 1) false with
          | Except.ok (ps, qs) => Except.ok (t :: ps, v :: qs)
          | Except.error e => Except.error e := by
      rw [formatParse]
      simp [hstep]
    rw [hpb]
    cases hr : formatParse argv rest (pre.length + 1) false with
    | ok r =>
      obtain ⟨ps, qs⟩ := r
      simp [Except.map]
    | error e => simp [Except.map]

theorem C5_witness :
    formatParse [("x").toList] (splitChar rbrace (("\x7b\x7d").toList)) 0 false
      = Except.ok ([[], []], [("x").toList]) := by
  have h := C5_implicit_index_is_position (("\x7b\x7d").toList) [("x").toList]
    [] [] [[]] [] [] (by decide) (by decide) (by decide) (by decide)
  exact h.trans (by decide)

/-- C6 counterexample: in `"\x7b5\x7d\x7dx"` with no arguments, the
second segment (empty, no open brace) is followed by a further segment
`"x"`, so the claim demands `UnmatchedCurlyBracket`; but the first
segment's out-of-range index 5 is hit first and the result is
`InvalidPositionalArgument`. -/
theorem C6_counterexample :
    tryFormat (("\x7b5\x7d\x7dx").toList) ([] : List Str)
      = Except.error FormatError.InvalidPositionalArgument
    ∧ tryFormat (("\x7b5\x7d\x7dx").toList) ([] : List Str)
      ≠ Except.error FormatError.UnmatchedCurlyBracket := by decide

/-- C6 amended: `try_format` returns `UnmatchedCurlyBracket` when the
first offending segment is a brace problem: after `pre` earlier segments
that all parse into resolved placeholders, a segment that either contains
more than one open brace, or contains none while further segments follow,
makes the whole format fail with `UnmatchedCurlyBracket`. -/
theorem C6_unmatched_bracket (pat : Str) (argv : List Str)
    (pre : List Str) (bad : Str) (rest : List Str) (ts vs : List Str)
    (hsplit : splitChar rbrace pat = pre ++ bad :: rest)
    (hpre : formatParse argv pre 0 false = Except.ok (ts, vs))
    (hlen : vs.length = pre.length)
    (hbad : (∃ x y z l, splitChar lbrace bad = x :: y :: z :: l)
            ∨ (containsChar lbrace bad = false ∧ rest ≠ [])) :
    tryFormat pat argv = Except.error FormatError.UnmatchedCurlyBracket := by
  have happ := formatParse_append argv pre (bad :: rest) 0 ts vs hpre hlen
  rw [Nat.zero_add] at happ
  cases hbad with
  | inl hmulti =>
    obtain ⟨x, y, z, l, hxyz⟩ := hmulti
    have hc : containsChar lbrace bad = true :=
      contains_of_splitChar_cons_cons lbrace bad x y (z :: l) hxyz
    have hstep : formatStep argv pre.length bad
        = Except.error FormatError.UnmatchedCurlyBracket := by
      rw [formatStep]
      simp [hc, hxyz]
    have hpb : formatParse argv (bad :: rest) pre.length false
        = Except.error FormatError.UnmatchedCurlyBracket := by
      rw [formatParse]
      simp [hstep]
    rw [tryFormat, hsplit, happ, hpb]
    simp [Except.map]
  | inr hfin =>
    obtain ⟨hnc, hrest⟩ := hfin
    obtain ⟨r2, rs, hr⟩ : ∃ r2 rs, rest = r2 :: rs := by
      cases rest with
      | nil => exact absurd rfl hrest
      | cons r2 rs => exact ⟨r2, rs, rfl⟩
    subst hr
    have hstep : formatStep argv pre.length bad = Except.ok (bad, none) := by
      rw [formatStep]
      simp [hnc]
    have hpb : formatParse argv (bad :: r2 :: rs) pre.length false
        = Except.error FormatError.UnmatchedCurlyBracket := by
      rw [formatParse]
      simp [hstep, formatParse]
    rw [tryFormat, hsplit, happ, hpb]
    simp [Except.map]

theorem C6_witness :
    tryFormat (("a\x7dbc").toList) ([] : List Str)
      = Except.error FormatError.UnmatchedCurlyBracket :=
  C6_unmatched_bracket (("a\x7dbc").toList) [] [] (("a").toList) [("bc").toList]
    [] [] (by decide) (by decide) (by decide)
    (Or.inr ⟨by decide, by decide⟩)

/-! ## Claims about locale negotiation -/

/-- The Rocket guard is exactly the table lookup of the chosen tag. -/
theorem fromRequestRocket_eq_find {α : Type} (langs : List (Str × α))
    (accept : Option Str) :
    fromRequestRocket langs accept
      = langs.find? (fun l => l.1 == chooseLangRocket langs accept) := by
  cases hfr : langs.find? (fun l => l.1 == chooseLangRocket langs accept) with
  | some p => simp [fromRequestRocket, hfr]
  | none => simp [fromRequestRocket, hfr]

/-- The Actix extractor is exactly the table lookup of the chosen tag,
with a `MissingTranslationsError` carrying that tag on failure. -/
theorem fromRequestActix_eq_find {α : Type} (langs : List (Str × α))
    (accept : Option Str) :
    fromRequestActix langs accept
      = match langs.find? (fun l => l.1 == chooseLangActix langs accept) with
        | some p => Except.ok p
        | none => Except.error
            (ActixNegotiationError.missingTranslations (chooseLangActix langs accept)) := by
  cases hfr : langs.find? (fun l => l.1 == chooseLangActix langs accept) with
  | some p => simp [fromRequestActix, hfr]
  | none => simp [fromRequestActix, hfr]

/-- C2: negotiation splits the header on commas in order, reduces each
token to its leading segment (splitting on `-`/`;`), and resolves to the
first resulting bare tag with an exact-match table entry: if `c` is the
first candidate the table supports, the chosen tag is `c`, the table
lookup of `c` succeeds, the found entry's tag is exactly `c`, and the
request resolves to that entry. -/
theorem C2_first_supported_candidate {α : Type} (langs : List (Str × α))
    (accept : Str) (c : Str)
    (hfind : (acceptCandidatesRocket accept).find?
        (fun lang => langs.any (fun l => l.1 == lang)) = some c) :
    chooseLangRocket langs (some accept) = c
    ∧ (langs.find? (fun l => l.1 == c)).isSome = true
    ∧ (∀ p, langs.find? (fun l => l.1 == c) = some p → p.1 = c)
    ∧ fromRequestRocket langs (some accept) = langs.find? (fun l => l.1 == c) := by
  have hchoose : chooseLangRocket langs (some accept) = c := by
    rw [chooseLangRocket]
    simp [hfind]
  have hany := List.find?_some hfind
  simp only [] at hany
  have hsome : (langs.find? (fun l => l.1 == c)).isSome = true := by
    rw [List.find?_isSome]
    exact List.any_eq_true.mp hany
  refine ⟨hchoose, hsome, ?_, ?_⟩
  · intro p hp
    have hbeq := List.find?_some hp
    simp only [] at hbeq
    exact eq_of_beq hbeq
  · rw [fromRequestRocket_eq_find, hchoose]

theorem C2_witness :
    chooseLangRocket ([((("en").toList), 0), ((("fr").toList), 1)] : List (Str × Nat))
        (some (("fr-FR,en;q=0.8").toList)) = (("fr").toList)
    ∧ fromRequestRocket ([((("en").toList), 0), ((("fr").toList), 1)] : List (Str × Nat))
        (some (("fr-FR,en;q=0.8").toList)) = some ((("fr").toList), 1) := by
  have h := C2_first_supported_candidate
    ([((("en").toList), 0), ((("fr").toList), 1)] : List (Str × Nat))
    (("fr-FR,en;q=0.8").toList) (("fr").toList) (by decide)
  exact ⟨h.1, h.2.2.2.trans (by decide)⟩

/-- C7: the chosen tag is the literal `"en"` both when the header is
absent and when no candidate bare tag matches any table entry, and the
outcome is then exactly the table lookup of `"en"`; the computation is
total (no panic) for every header, including empty strings and tokens
with no language segment. -/
theorem C7_fallback_en {α : Type} (langs : List (Str × α)) (accept : Option Str)
    (h : accept = none
         ∨ (acceptCandidatesRocket (accept.getD (("en").toList))).find?
             (fun lang => langs.any (fun l => l.1 == lang)) = none) :
    chooseLangRocket langs accept = (("en").toList)
    ∧ fromRequestRocket langs accept = langs.find? (fun l => l.1 == (("en").toList)) := by
  have hchoose : chooseLangRocket langs accept = (("en").toList) := by
    cases h with
    | inr hn => rw [chooseLangRocket, hn]; rfl
    | inl ha =>
      subst ha
      rw [chooseLangRocket]
      have hc : acceptCandidatesRocket ((none : Option Str).getD (("en").toList))
          = [(("en").toList)] := by decide
      rw [hc]
      cases hf : List.find? (fun lang => langs.any (fun l => l.1 == lang))
          [(("en").toList)] with
      | some c =>
        have hmem := List.mem_of_find?_eq_some hf
        simp at hmem
        rw [hmem]
        decide
      | none => rfl
  exact ⟨hchoose, by rw [fromRequestRocket_eq_find, hchoose]⟩

theorem C7_witness :
    fromRequestRocket ([((("en").toList), 0), ((("fr").toList), 1)] : List (Str × Nat))
        none = some ((("en").toList), 0)
    ∧ fromRequestRocket ([((("en").toList), 0), ((("fr").toList), 1)] : List (Str × Nat))
        (some (("de-DE").toList)) = some ((("en").toList), 0)
    ∧ fromRequestRocket ([((("en").toList), 0), ((("fr").toList), 1)] : List (Str × Nat))
        (some (("-x,").toList)) = some ((("en").toList), 0) := by
  refine ⟨?_, ?_, ?_⟩
  · have h := C7_fallback_en
      ([((("en").toList), 0), ((("fr").toList), 1)] : List (Str × Nat)) none (Or.inl rfl)
    exact h.2.trans (by decide)
  · have h := C7_fallback_en
      ([((("en").toList), 0), ((("fr").toList), 1)] : List (Str × Nat))
      (some (("de-DE").toList)) (Or.inr (by decide))
    exact h.2.trans (by decide)
  · have h := C7_fallback_en
      ([((("en").toList), 0), ((("fr").toList), 1)] : List (Str × Nat))
      (some (("-x,").toList)) (Or.inr (by decide))
    exact h.2.trans (by decide)

/-- C8: the Actix negotiation fails — necessarily with
`MissingTranslationsError("en")` — exactly when no candidate bare tag
matches any table entry and the fallback `"en"` itself has no entry. -/
theorem C8_missing_translation {α : Type} (langs : List (Str × α))
    (accept : Option Str) :
    fromRequestActix langs accept
        = Except.error (ActixNegotiationError.missingTranslations (("en").toList))
      ↔ ((acceptCandidatesActix (accept.getD (("en").toList))).find?
            (fun lang => langs.any (fun l => l.1 == lang)) = none
         ∧ langs.find? (fun l => l.1 == (("en").toList)) = none) := by
  constructor
  · intro h
    cases hf : (acceptCandidatesActix (accept.getD (("en").toList))).find?
        (fun lang => langs.any (fun l => l.1 == lang)) with
    | some c =>
      have hchoose : chooseLangActix langs accept = c := by
        rw [chooseLangActix, hf]; rfl
      have hany := List.find?_some hf
      simp only [] at hany
      have hsome : (langs.find? (fun l => l.1 == c)).isSome = true := by
        rw [List.find?_isSome]
        exact List.any_eq_true.mp hany
      rw [fromRequestActix_eq_find, hchoose] at h
      cases hfr : langs.find? (fun l => l.1 == c) with
      | some p => rw [hfr] at h; simp at h
      | none => rw [hfr] at hsome; simp at hsome
    | none =>
      have hchoose : chooseLangActix langs accept = (("en").toList) := by
        rw [chooseLangActix, hf]; rfl
      refine ⟨rfl, ?_⟩
      rw [fromRequestActix_eq_find, hchoose] at h
      cases hfr : langs.find? (fun l => l.1 == (("en").toList)) with
      | some p => rw [hfr] at h; simp at h
      | none => rfl
  · intro hb
    obtain ⟨hf, hen⟩ := hb
    have hchoose : chooseLangActix langs accept = (("en").toList) := by
      rw [chooseLangActix, hf]; rfl
    rw [fromRequestActix_eq_find, hchoose, hen]

/-- C10: for every table and every (present or absent) header, the
Rocket and Actix implementations choose the same locale tag, resolve to
the same `(tag, catalog)` entry, and succeed or fail on exactly the same
inputs (the Rocket outcome is the option view of the Actix result). -/
theorem C10_rocket_actix_equivalent {α : Type} (langs : List (Str × α))
    (accept : Option Str) :
    chooseLangRocket langs accept = chooseLangActix langs accept
    ∧ fromRequestRocket langs accept = (fromRequestActix langs accept).toOption := by
  have hcand : acceptCandidatesRocket (accept.getD (("en").toList))
      = acceptCandidatesActix (accept.getD (("en").toList)) := by
    rw [acceptCandidatesRocket, acceptCandidatesActix]
    congr 1
    funext lang
    cases splitPred localePred lang with
    | nil => rfl
    | cons a as => rfl
  have hchoose : chooseLangRocket langs accept = chooseLangActix langs accept := by
    rw [chooseLangRocket, chooseLangActix, hcand]
  refine ⟨hchoose, ?_⟩
  rw [fromRequestRocket_eq_find, fromRequestActix_eq_find, hchoose]
  cases hfr : langs.find? (fun l => l.1 == chooseLangActix langs accept) with
  | some p => simp [Except.toOption]
  | none => simp [Except.toOption]
